import Mathlib

/-!
Verification of `advanced-vector/vector.h`: a growable contiguous container
(`Vector<T>`) built on a raw-storage owner (`RawMemory<T>`).

Shallow embedding: a vector's observable state is the list of live elements
(slots `[0, size)`) together with the capacity of the owned `RawMemory`
block.  Slots `[size, capacity)` are uninitialized storage and hold no
value, so they are not represented; `size` is the length of the list.
Iterators are represented as indices from `begin()`.  Exceptions raised by
an element's copy constructor during relocation are modelled by an
`ExcResult` outcome carrying the state the vector is left in when the
exception propagates.
-/

/-- Observable state of a `Vector<T>`: the live elements in slots
`[0, size_)` and the capacity of the owned `RawMemory<T>` block. -/
structure VState (α : Type) where
  elems : List α
  cap : Nat
deriving Repr, DecidableEq

/-- Member `Size()`: number of live constructed elements. -/
def VState.size (v : VState α) : Nat :=
  v.elems.length

/-- The capacity requested for the new block in `EmplaceBack`/`Emplace`
growth: `size_ == 0 ? 1 : size_ * 2` (evaluated when `size_ == Capacity()`). -/
def newCap (sz : Nat) : Nat :=
  if sz = 0 then 1 else sz * 2

/-- Default constructor `Vector()`: no block, `size_ = 0`. -/
def VState.empty (α : Type) : VState α :=
  ⟨[], 0⟩

/-- Move constructor `Vector(Vector&&)`: steals the block (source block becomes
null/capacity 0 via `RawMemory`'s move constructor) and exchanges
`size_` with 0.  Returns (destination, source-after). -/
def moveFrom (other : VState α) : VState α × VState α :=
  (⟨other.elems, other.cap⟩, ⟨[], 0⟩)

/-- Move assignment `operator=(Vector&&)`: if not self-assignment, `Swap(rhs)` — the two
states are exchanged.  Returns (this-after, rhs-after). -/
def moveAssignFrom (self rhs : VState α) (isSelf : Bool) : VState α × VState α :=
  if isSelf then (self, rhs) else (rhs, self)

/-- Copy assignment `operator=(const Vector&)`: if not self-assignment, either rebuild via
copy-and-swap (when `rhs.size_ > Capacity()`, giving capacity `rhs.size_`)
or assign/construct in place keeping the current block. -/
def copyAssignFrom (self rhs : VState α) (isSelf : Bool) : VState α :=
  if isSelf then self
  else if self.cap < rhs.elems.length then
    ⟨rhs.elems, rhs.elems.length⟩
  else
    ⟨rhs.elems, self.cap⟩

/-- Member `EmplaceBack`: when `size_ == Capacity()`, allocate `newCap size_`,
construct the new element at slot `size_` of the new block, relocate the
old elements via `CopyN`, destroy the old ones and swap blocks; otherwise
construct in place at slot `size_`. -/
def emplaceBack (v : VState α) (x : α) : VState α :=
  if v.elems.length = v.cap then
    ⟨v.elems ++ [x], newCap v.elems.length⟩
  else
    ⟨v.elems ++ [x], v.cap⟩

/-- Member `PushBack`: forwards to `EmplaceBack`. -/
def pushBack (v : VState α) (x : α) : VState α :=
  emplaceBack v x

/-- Member `Emplace(pos, args...)` with `distance = pos - begin()`.  Growth path:
construct the new element at slot `distance` of the new block, relocate
the prefix `[0, distance)` then the suffix `[distance, size_)` shifted by
one, destroy the old elements and swap.  In-place path with
`distance < size_`: move-construct the last element into slot `size_`,
`move_backward` the range `[pos, end()-1)` one slot right, assign the new
value into slot `distance`.  In-place path with `distance == size_`:
construct at slot `distance`.  Returns (state, index of the inserted
element, i.e. the returned iterator `data_ + distance`). -/
def emplace (v : VState α) (pos : Nat) (x : α) : VState α × Nat :=
  let distance := pos
  if v.elems.length = v.cap then
    (⟨v.elems.take distance ++ x :: v.elems.drop distance, newCap v.elems.length⟩, distance)
  else if distance < v.elems.length then
    (⟨v.elems.take distance ++ x :: v.elems.drop distance, v.cap⟩, distance)
  else
    (⟨v.elems ++ [x], v.cap⟩, distance)

/-- Member `Insert(pos, value)`: forwards to `Emplace`. -/
def insertAt (v : VState α) (pos : Nat) (x : α) : VState α × Nat :=
  emplace v pos x

/-- Member `Erase(pos)`: move-assigns `[pos+1, end())` one slot left, destroys the
last slot, decrements `size_`. -/
def erase (v : VState α) (pos : Nat) : VState α :=
  ⟨v.elems.take pos ++ v.elems.drop (pos + 1), v.cap⟩

/-- Member `Reserve(new_capacity)`: no-op when `new_capacity <= Capacity()`;
otherwise allocate exactly `new_capacity` slots, relocate via `CopyN`,
destroy old elements, swap blocks. -/
def reserve (v : VState α) (k : Nat) : VState α :=
  if k ≤ v.cap then v else ⟨v.elems, k⟩

/-- The static branch of `CopyN`: relocation moves the elements iff the
element type is nothrow-move-constructible or not copy-constructible. -/
def copyNUsesMove (nothrowMove copyConstructible : Bool) : Bool :=
  nothrowMove || !copyConstructible

/-- Modelled from the spec's transfer-policy sentence, for comparison with
`copyNUsesMove`: move "if the element type's move construction is
guaranteed never to raise, or if the element type cannot be
copy-constructed at all; otherwise it copies". -/
def specTransferMoves (nothrowMove copyConstructible : Bool) : Prop :=
  nothrowMove = true ∨ ¬ copyConstructible = true

instance (a b : Bool) : Decidable (specTransferMoves a b) := by
  unfold specTransferMoves
  infer_instance

/-- The relocation sites of the container: the growth path of
`EmplaceBack`/`Emplace`, the growth path of `Reserve`, and the rebuild
path of `operator=(const Vector&)` (which builds `rhs_copy(rhs)` and
swaps it in). -/
inductive RelocSite where
  | growth
  | reserveGrow
  | copyAssignRebuild
deriving Repr, DecidableEq

/-- Whether the code's relocation at each site move-constructs, as a
function of the element type's traits: the growth paths and `Reserve`
relocate via `CopyN` and take its `if constexpr` branch; the copy-assign
rebuild path relocates through the copy constructor
`Vector(const Vector&)`, which uses `std::uninitialized_copy_n`
unconditionally, so it never moves regardless of the traits. -/
def siteRelocUsesMove (s : RelocSite) (nothrowMove copyConstructible : Bool) :
    Bool :=
  match s with
  | .growth => copyNUsesMove nothrowMove copyConstructible
  | .reserveGrow => copyNUsesMove nothrowMove copyConstructible
  | .copyAssignRebuild => false

/-- Whether a `CopyN` batch of `n` copy-constructor invocations raises,
given the instrumented failure schedule of the element type. -/
def copyNFails (fails : Nat → Bool) (n : Nat) : Bool :=
  (List.range n).any fails

/-- Outcome of an operation on an instrumented element type: normal return
with the resulting state, or an exception propagating with the state the
vector is left holding. -/
inductive ExcResult (α : Type) where
  | ok : VState α → ExcResult α
  | thrown : VState α → ExcResult α
deriving Repr, DecidableEq

/-- Member `EmplaceBack` on an element type whose copy constructor is
instrumented to raise (move not guaranteed non-raising, so `CopyN`
copies).  In the growth path the new element is constructed into the new
block, then `CopyN` copies the `size_` old elements; if copy `i` raises,
`uninitialized_copy_n` destroys its partial output and the exception
unwinds past the (unswapped) `data_` and untouched `size_`. -/
def emplaceBackExc (v : VState α) (x : α) (fails : Nat → Bool) : ExcResult α :=
  if v.elems.length = v.cap then
    if copyNFails fails v.elems.length then
      .thrown ⟨v.elems, v.cap⟩
    else
      .ok ⟨v.elems ++ [x], newCap v.elems.length⟩
  else
    .ok ⟨v.elems ++ [x], v.cap⟩

/-- Member `Emplace` on the same instrumented element type.  Growth path:
construct the new element at slot `distance` of the new block; `CopyN`
the prefix (`distance` copies; on a raise the catch destroys the new
element and rethrows); `CopyN` the suffix (`size_ - distance` further
copies; on a raise the catch destroys the `distance + 1` placed new-block
elements and rethrows); only after both succeed are the old elements
destroyed and the blocks swapped.  The in-place path performs no
copy-constructor invocations of the instrumented kind. -/
def emplaceExc (v : VState α) (pos : Nat) (x : α) (fails : Nat → Bool) :
    ExcResult α :=
  let distance := pos
  if v.elems.length = v.cap then
    if copyNFails fails distance then
      .thrown ⟨v.elems, v.cap⟩
    else if copyNFails (fun i => fails (distance + i)) (v.elems.length - distance) then
      .thrown ⟨v.elems, v.cap⟩
    else
      .ok ⟨v.elems.take distance ++ x :: v.elems.drop distance, newCap v.elems.length⟩
  else if distance < v.elems.length then
    .ok ⟨v.elems.take distance ++ x :: v.elems.drop distance, v.cap⟩
  else
    .ok ⟨v.elems ++ [x], v.cap⟩

/-- Member `Reserve` on the instrumented element type: the growth path performs
`size_` copies via `CopyN` and destroys the old elements only after the
whole batch succeeded. -/
def reserveExc (v : VState α) (k : Nat) (fails : Nat → Bool) : ExcResult α :=
  if k ≤ v.cap then
    .ok v
  else if copyNFails fails v.elems.length then
    .thrown ⟨v.elems, v.cap⟩
  else
    .ok ⟨v.elems, k⟩

/-- Iterating `PushBack` `n` times starting from the empty vector,
appending `0, 1, ..., n-1`. -/
def appendN : Nat → VState Nat
  | 0 => VState.empty Nat
  | n + 1 => pushBack (appendN n) n

/-! ## Helper lemmas -/

theorem emplaceBack_elems (v : VState α) (x : α) :
    (emplaceBack v x).elems = v.elems ++ [x] := by
  unfold emplaceBack
  split <;> rfl

theorem takeConsDrop (l : List α) (i : Nat) (x : α) (h : i ≤ l.length) :
    l.take i ++ x :: l.drop i = l.insertIdx i x := by
  induction l generalizing i with
  | nil =>
    have hi : i = 0 := by simpa using h
    subst hi
    rfl
  | cons a l ih =>
    cases i with
    | zero => rfl
    | succ i =>
      simp only [List.take_succ_cons, List.drop_succ_cons, List.cons_append,
        List.insertIdx_succ_cons]
      exact congrArg (a :: ·) (ih i (by simpa using h))

theorem emplace_fst_elems (v : VState α) (pos : Nat) (x : α) :
    (emplace v pos x).1.elems = v.elems.take pos ++ x :: v.elems.drop pos := by
  unfold emplace
  by_cases h1 : v.elems.length = v.cap
  · rw [if_pos h1]
  · rw [if_neg h1]
    by_cases h2 : pos < v.elems.length
    · rw [if_pos h2]
    · rw [if_neg h2]
      show v.elems ++ [x] = _
      rw [List.take_of_length_le (by omega), List.drop_of_length_le (by omega)]

theorem emplace_snd (v : VState α) (pos : Nat) (x : α) :
    (emplace v pos x).2 = pos := by
  unfold emplace
  by_cases h1 : v.elems.length = v.cap
  · rw [if_pos h1]
  · rw [if_neg h1]
    by_cases h2 : pos < v.elems.length
    · rw [if_pos h2]
    · rw [if_neg h2]

/-! ## Claims -/

/-- C1 counterexample: move assignment is implemented as `Swap(rhs)`, so
with destination `⟨[5], 1⟩` and source `⟨[1, 2], 2⟩` the source ends up
holding the destination's prior state (`size = 1`, `capacity = 1`), not
`size = 0` and `capacity = 0` as the claim states. -/
theorem moveAssign_empties_source_counterexample :
    ¬ (((moveAssignFrom (⟨[5], 1⟩ : VState Nat) ⟨[1, 2], 2⟩ false).2).size = 0 ∧
       ((moveAssignFrom (⟨[5], 1⟩ : VState Nat) ⟨[1, 2], 2⟩ false).2).cap = 0) := by
  decide

/-- C1 (amended): after move construction the source has `size = 0` and
`capacity = 0` and the destination holds exactly the prior state of the
source; after (non-self) move assignment the destination holds exactly
the prior state of the source, while the source holds the destination's
prior state (the two states are exchanged).  Both operations are total
functions of the two states (never fail). -/
theorem move_transfer_exact (v w : VState α) :
    (moveFrom v).1 = v ∧
    (moveFrom v).2.size = 0 ∧
    (moveFrom v).2.cap = 0 ∧
    (moveAssignFrom w v false).1 = v ∧
    (moveAssignFrom w v false).2 = w := by
  exact ⟨rfl, rfl, rfl, rfl, rfl⟩

/-- C2: with an instrumented element type whose copy constructor raises
during relocation (and whose move constructor is not nothrow, so `CopyN`
takes the copy branch), a growing `EmplaceBack`/`PushBack` or
`Emplace`/`Insert` that propagates such an exception leaves the vector in
exactly its pre-call state: same elements (hence same size) and same
capacity. -/
theorem growth_copy_failure_preserves_state (v : VState α) (x : α) (pos : Nat)
    (fails : Nat → Bool) (s t : VState α)
    (hb : emplaceBackExc v x fails = .thrown s)
    (he : emplaceExc v pos x fails = .thrown t) :
    s = v ∧ t = v := by
  constructor
  · unfold emplaceBackExc at hb
    by_cases h1 : v.elems.length = v.cap
    · rw [if_pos h1] at hb
      by_cases h2 : copyNFails fails v.elems.length = true
      · rw [if_pos h2] at hb
        cases hb
        rfl
      · rw [if_neg h2] at hb
        cases hb
    · rw [if_neg h1] at hb
      cases hb
  · unfold emplaceExc at he
    by_cases h1 : v.elems.length = v.cap
    · rw [if_pos h1] at he
      by_cases h2 : copyNFails fails pos = true
      · rw [if_pos h2] at he
        cases he
        rfl
      · rw [if_neg h2] at he
        by_cases h3 :
            copyNFails (fun i => fails (pos + i)) (v.elems.length - pos) = true
        · rw [if_pos h3] at he
          cases he
          rfl
        · rw [if_neg h3] at he
          cases he
    · rw [if_neg h1] at he
      by_cases h2 : pos < v.elems.length
      · rw [if_pos h2] at he
        cases he
      · rw [if_neg h2] at he
        cases he

/-- Witness for C2: the vector `⟨[7], 1⟩` is full, so appending triggers
growth; with every copy-constructor invocation instrumented to raise,
both operations propagate the exception and leave the state `⟨[7], 1⟩`. -/
theorem growth_copy_failure_witness :
    (⟨[7], 1⟩ : VState Nat) = ⟨[7], 1⟩ ∧ (⟨[7], 1⟩ : VState Nat) = ⟨[7], 1⟩ :=
  growth_copy_failure_preserves_state ⟨[7], 1⟩ 3 1 (fun _ => true) ⟨[7], 1⟩ ⟨[7], 1⟩
    (by decide) (by decide)

/-- C5: `Reserve(k)` never decreases capacity, never changes the elements
(hence neither size, values, nor order); it is a no-op when
`k <= Capacity()` and otherwise yields capacity at least `k` (exactly
`k`). -/
theorem reserve_spec (v : VState α) (k : Nat) :
    v.cap ≤ (reserve v k).cap ∧
    (reserve v k).elems = v.elems ∧
    (reserve v k).size = v.size ∧
    (k ≤ v.cap → reserve v k = v) ∧
    (v.cap < k → k ≤ (reserve v k).cap) := by
  unfold reserve
  by_cases h : k ≤ v.cap
  · rw [if_pos h]
    exact ⟨le_refl _, rfl, rfl, fun _ => rfl, by omega⟩
  · rw [if_neg h]
    refine ⟨?_, rfl, rfl, fun hk => absurd hk h, fun _ => le_refl _⟩
    show v.cap ≤ k
    omega

/-- Witness for C5 at `v = ⟨[4], 1⟩`, `k = 5`: the growth branch yields
capacity at least 5. -/
theorem reserve_spec_witness :
    5 ≤ (reserve (⟨[4], 1⟩ : VState Nat) 5).cap :=
  (reserve_spec (⟨[4], 1⟩ : VState Nat) 5).2.2.2.2 (by decide)

/-- C10: self-assignment is a no-op: both `operator=(const Vector&)` and
`operator=(Vector&&)` first compare `this != &rhs` and leave the vector
unchanged when the operands alias. -/
theorem self_assignment_noop (v : VState α) :
    copyAssignFrom v v true = v ∧ moveAssignFrom v v true = (v, v) :=
  ⟨rfl, rfl⟩

theorem appendN_length (n : Nat) : (appendN n).elems.length = n := by
  induction n with
  | zero => rfl
  | succ n ih =>
    show (emplaceBack (appendN n) n).elems.length = n + 1
    rw [emplaceBack_elems]
    simp [ih]

theorem appendN_cap_succ (n : Nat) :
    (appendN (n + 1)).cap =
      if n = (appendN n).cap then newCap n else (appendN n).cap := by
  have hsize : (appendN n).elems.length = n := appendN_length n
  show (emplaceBack (appendN n) n).cap = _
  unfold emplaceBack
  rw [hsize]
  split <;> rfl

theorem appendN_cap_pow (n : Nat) (h : 1 ≤ n) :
    ∃ k, (appendN n).cap = 2 ^ k ∧ n ≤ 2 ^ k ∧ 2 ^ k < 2 * n := by
  induction n with
  | zero => omega
  | succ n ih =>
    by_cases hn : n = 0
    · subst hn
      exact ⟨0, rfl, by omega, by omega⟩
    · obtain ⟨k, hc, hle, hlt⟩ := ih (by omega)
      rw [appendN_cap_succ, hc]
      have hp : 2 ^ (k + 1) = 2 * 2 ^ k := by
        rw [pow_succ]
        ring
      by_cases hfull : n = 2 ^ k
      · rw [if_pos hfull]
        refine ⟨k + 1, ?_, by omega, by omega⟩
        unfold newCap
        rw [if_neg hn]
        omega
      · rw [if_neg hfull]
        exact ⟨k, rfl, by omega, by omega⟩

theorem appendN_le_cap (n : Nat) : n ≤ (appendN n).cap := by
  by_cases hn : n = 0
  · omega
  · obtain ⟨k, hc, hle, _⟩ := appendN_cap_pow n (by omega)
    omega

/-- C3: when an append/insert finds `size_ == Capacity()`, the fresh block
has capacity `size_ == 0 ? 1 : size_ * 2`, which at that point equals
`max(1, 2 * oldCapacity)`; appending `n` elements from empty yields
`size = n`, the capacity visited after each append is the least power of
two at least the size (so the capacities follow `1, 2, 4, 8, ...`), and
capacity always stays at least the size reached. -/
theorem growth_policy (v : VState α) (x : α) (pos n : Nat) :
    (emplaceBack v x).cap =
      (if v.elems.length = v.cap then max 1 (2 * v.cap) else v.cap) ∧
    (emplace v pos x).1.cap =
      (if v.elems.length = v.cap then max 1 (2 * v.cap) else v.cap) ∧
    (appendN n).elems.length = n ∧
    n ≤ (appendN n).cap ∧
    (1 ≤ n → ∃ k, (appendN n).cap = 2 ^ k ∧ n ≤ 2 ^ k ∧ 2 ^ k < 2 * n) := by
  have hcap : newCap v.elems.length =
      (if v.elems.length = v.cap then max 1 (2 * v.cap) else newCap v.elems.length) := by
    by_cases h : v.elems.length = v.cap
    · rw [if_pos h]
      unfold newCap
      rw [h]
      by_cases h0 : v.cap = 0
      · rw [if_pos h0, h0]
        omega
      · rw [if_neg h0]
        omega
    · rw [if_neg h]
  refine ⟨?_, ?_, appendN_length n, appendN_le_cap n, appendN_cap_pow n⟩
  · unfold emplaceBack
    by_cases h : v.elems.length = v.cap
    · rw [if_pos h]
      show newCap v.elems.length = _
      rw [hcap, if_pos h, if_pos h]
    · rw [if_neg h, if_neg h]
  · unfold emplace
    by_cases h : v.elems.length = v.cap
    · rw [if_pos h]
      show newCap v.elems.length = _
      rw [hcap, if_pos h, if_pos h]
    · rw [if_neg h, if_neg h]
      by_cases h2 : pos < v.elems.length
      · rw [if_pos h2]
      · rw [if_neg h2]

/-- Witness for C3 at `n = 3`: three appends from empty visit capacities
`1, 2, 4`; the final capacity is `4 = 2^2` with `3 ≤ 4 < 6`. -/
theorem growth_policy_witness :
    ∃ k, (appendN 3).cap = 2 ^ k ∧ 3 ≤ 2 ^ k ∧ 2 ^ k < 2 * 3 :=
  (growth_policy (VState.empty Nat) 0 0 3).2.2.2.2 (by decide)

/-- C4: for any valid index `i <= size`, `Insert(begin() + i, v)` /
`Emplace(begin() + i, v)` followed by `Erase(begin() + i)` restores the
exact original element sequence and the original size. -/
theorem insert_erase_roundtrip (v : VState α) (i : Nat) (x : α)
    (h : i ≤ v.elems.length) :
    (erase (emplace v i x).1 i).elems = v.elems ∧
    (erase (emplace v i x).1 i).size = v.size := by
  have he : (erase (emplace v i x).1 i).elems = v.elems := by
    show (emplace v i x).1.elems.take i ++ (emplace v i x).1.elems.drop (i + 1) = v.elems
    rw [← List.eraseIdx_eq_take_drop_succ, emplace_fst_elems, takeConsDrop _ _ _ h,
      List.eraseIdx_insertIdx]
  refine ⟨he, ?_⟩
  show (erase (emplace v i x).1 i).elems.length = v.elems.length
  rw [he]

/-- Witness for C4 at `v = ⟨[1, 2, 3], 4⟩`, `i = 1`, `x = 99`: inserting
99 at index 1 and erasing index 1 restores `[1, 2, 3]`. -/
theorem insert_erase_roundtrip_witness :
    (erase (emplace (⟨[1, 2, 3], 4⟩ : VState Nat) 1 99).1 1).elems =
      (⟨[1, 2, 3], 4⟩ : VState Nat).elems ∧
    (erase (emplace (⟨[1, 2, 3], 4⟩ : VState Nat) 1 99).1 1).size =
      (⟨[1, 2, 3], 4⟩ : VState Nat).size :=
  insert_erase_roundtrip ⟨[1, 2, 3], 4⟩ 1 99 (by decide)

/-- C8: `Emplace(end(), args...)` / `Insert(end(), v)` produces exactly the
same resulting state (elements and capacity) as `EmplaceBack(args...)` /
`PushBack(v)` from the same starting state. -/
theorem emplace_at_end_eq_emplaceBack (v : VState α) (x : α) :
    (emplace v v.elems.length x).1 = emplaceBack v x ∧
    (insertAt v v.elems.length x).1 = pushBack v x := by
  have h : (emplace v v.elems.length x).1 = emplaceBack v x := by
    unfold emplace emplaceBack
    by_cases h1 : v.elems.length = v.cap
    · rw [if_pos h1, if_pos h1]
      show (⟨_, _⟩ : VState α) = ⟨_, _⟩
      rw [List.take_of_length_le (le_refl _), List.drop_of_length_le (le_refl _)]
    · rw [if_neg h1, if_neg h1, if_neg (lt_irrefl v.elems.length)]
  exact ⟨h, h⟩

/-- C9: `Emplace`/`Insert` returns `begin()` plus the offset `distance`
of the insertion position computed on entry, and the element at that
offset in the resulting vector is the inserted value. -/
theorem emplace_returns_inserted (v : VState α) (pos : Nat) (x : α)
    (h : pos ≤ v.elems.length) :
    (emplace v pos x).2 = pos ∧
    (insertAt v pos x).2 = pos ∧
    (emplace v pos x).1.elems[pos]? = some x := by
  refine ⟨emplace_snd v pos x, emplace_snd v pos x, ?_⟩
  rw [emplace_fst_elems]
  have hl : (v.elems.take pos).length = pos := by
    simp [List.length_take]
    omega
  rw [List.getElem?_append_right (by omega), hl]
  simp

/-- Witness for C9 at `v = ⟨[1, 2], 4⟩`, `pos = 1`, `x = 9`: the returned
iterator offset is 1 and the element there is 9. -/
theorem emplace_returns_inserted_witness :
    (emplace (⟨[1, 2], 4⟩ : VState Nat) 1 9).2 = 1 ∧
    (insertAt (⟨[1, 2], 4⟩ : VState Nat) 1 9).2 = 1 ∧
    (emplace (⟨[1, 2], 4⟩ : VState Nat) 1 9).1.elems[1]? = some 9 :=
  emplace_returns_inserted ⟨[1, 2], 4⟩ 1 9 (by decide)

/-- C7 counterexample: the claim says every relocation — the copy-assign
rebuild path included — moves when the element type is
nothrow-move-constructible and copy-constructible.  But the rebuild path
goes through `Vector(const Vector&)`, whose `std::uninitialized_copy_n`
copies unconditionally: at traits (nothrowMove = true,
copyConstructible = true) the spec's policy says move while the code
copies. -/
theorem transfer_policy_counterexample :
    ¬ (siteRelocUsesMove .copyAssignRebuild true true = true ↔
       specTransferMoves true true) := by
  decide

/-- C7 (amended): during the growth and `Reserve` relocations, `CopyN`
relocates by move exactly when the element type is
nothrow-move-constructible or not copy-constructible — a choice computed
from the type's traits alone (`if constexpr`), matching the spec's
transfer policy — and in the copy branch the old elements are destroyed
only after the whole batch of copies succeeded, so a raising copy leaves
the vector's elements and capacity unchanged (shown on `Reserve`); the
copy-assign rebuild path, however, always copy-constructs from the
right-hand side regardless of the element type's traits. -/
theorem transfer_policy_sites (nm cc : Bool) (v : VState α) (k : Nat)
    (fails : Nat → Bool) (u : VState α) :
    (siteRelocUsesMove .growth nm cc = true ↔ specTransferMoves nm cc) ∧
    (siteRelocUsesMove .reserveGrow nm cc = true ↔ specTransferMoves nm cc) ∧
    siteRelocUsesMove .copyAssignRebuild nm cc = false ∧
    (reserveExc v k fails = .thrown u → u = v) := by
  refine ⟨?_, ?_, rfl, ?_⟩
  · cases nm <;> cases cc <;>
      simp [siteRelocUsesMove, copyNUsesMove, specTransferMoves]
  · cases nm <;> cases cc <;>
      simp [siteRelocUsesMove, copyNUsesMove, specTransferMoves]
  · intro hr
    unfold reserveExc at hr
    by_cases h1 : k ≤ v.cap
    · rw [if_pos h1] at hr
      cases hr
    · rw [if_neg h1] at hr
      by_cases h2 : copyNFails fails v.elems.length = true
      · rw [if_pos h2] at hr
        cases hr
        rfl
      · rw [if_neg h2] at hr
        cases hr

/-- Witness for C7: a full vector `⟨[1], 1⟩` reserved to capacity 2 with
every copy instrumented to raise propagates the exception and keeps the
state `⟨[1], 1⟩`. -/
theorem transfer_policy_sites_witness :
    (⟨[1], 1⟩ : VState Nat) = ⟨[1], 1⟩ :=
  (transfer_policy_sites true false (⟨[1], 1⟩ : VState Nat) 2 (fun _ => true)
    ⟨[1], 1⟩).2.2.2 (by decide)
